import Mathlib

/-!
# Verification of the Celebi ASTONISH forum client

A shallow embedding, in Lean 4, of the core of the Celebi repository
(`celebi/astonish/client.py`, `celebi/astonish/models.py`,
`celebi/astonish/shop.py`): the authenticated HTTP gateway with its
bounded retry, the logged-in content check, the mod-CP edit-form parser,
`get_character` with its TTL character cache, the personal-computer
Pokemon HTML parser and serializer, the inventory parser, and the shop
region/type parser.

HTML documents are embedded structurally: each parser's input is a record
holding exactly the pieces of markup the Python code queries (selected
elements, attributes, text contents).  Python strings are Lean `String`s;
Python `int` is Lean `Int`; exceptions become `Except`/`Option` results;
the aiohttp session and the network are an explicit environment of
oracles plus an explicit state (cookie flag, request counters, cache).
-/

namespace Celebi

deriving instance DecidableEq for Except

/-! ## Python string primitives

Models of the Python string operations the client relies on:
`str.strip` (also pydantic's `str_strip_whitespace`), `str.lower`
(ASCII range; `str.casefold` agrees on ASCII), substring membership
(`'shiny' in s`), `str.endswith`/`str.removesuffix`, and `int(s)` /
`str(i)` conversions (underscore digit separators are not modelled). -/

def isPyWs (c : Char) : Bool :=
  c = ' ' || c = '\t' || c = '\n' || c = '\r' || c = '\x0b' || c = '\x0c'

def stripLead (l : List Char) : List Char := l.dropWhile isPyWs

def pyStripL (l : List Char) : List Char :=
  ((stripLead l).reverse.dropWhile isPyWs).reverse

def pyStrip (s : String) : String := ⟨pyStripL s.data⟩

def pyLowerChar (c : Char) : Char :=
  if 'A' ≤ c ∧ c ≤ 'Z' then Char.ofNat (c.toNat + 32) else c

def pyLower (s : String) : String := ⟨s.data.map pyLowerChar⟩

def listStarts : List Char → List Char → Bool
  | [], _ => true
  | _ :: _, [] => false
  | p :: ps, c :: cs => p = c && listStarts ps cs

def listEnds (p l : List Char) : Bool := listStarts p.reverse l.reverse

def listInfixOf (n : List Char) : List Char → Bool
  | [] => listStarts n []
  | c :: cs => listStarts n (c :: cs) || listInfixOf n cs

/-- `needle in haystack` for Python strings (substring containment). -/
def pyContains (needle haystack : String) : Bool :=
  listInfixOf needle.data haystack.data

def pyEndsWith (s suffixStr : String) : Bool := listEnds suffixStr.data s.data

def pyRemoveSuffix (s suffixStr : String) : String :=
  if pyEndsWith s suffixStr then ⟨s.data.take (s.data.length - suffixStr.data.length)⟩
  else s

/-- Model of pydantic's `HttpUrl` acceptance: the string is an absolute
http(s) URL.  (Normalisation performed by pydantic is not modelled; the
validated value is kept verbatim.) -/
def isHttpUrl (s : String) : Bool :=
  (listStarts "http://".data s.data || listStarts "https://".data s.data)
    && s.data.length > 8

def digitChar : Nat → Char
  | 0 => '0' | 1 => '1' | 2 => '2' | 3 => '3' | 4 => '4'
  | 5 => '5' | 6 => '6' | 7 => '7' | 8 => '8' | 9 => '9'
  | _ => 'X'

def natDigitsRev : Nat → List Char
  | 0 => []
  | n + 1 => digitChar ((n + 1) % 10) :: natDigitsRev ((n + 1) / 10)
decreasing_by exact Nat.div_lt_self (Nat.succ_pos n) (by omega)

/-- Model of Python `str(n)` for a non-negative integer. -/
def printNat (n : Nat) : String :=
  if n = 0 then "0" else ⟨(natDigitsRev n).reverse⟩

/-- Model of Python `str(i)`. -/
def printInt (i : Int) : String :=
  if i < 0 then "-" ++ printNat (-i).toNat else printNat i.toNat

def digitsVal (l : List Char) : Nat :=
  l.foldl (fun a c => 10 * a + (c.toNat - 48)) 0

def parseDigits (l : List Char) : Option Nat :=
  if l ≠ [] ∧ l.all Char.isDigit then some (digitsVal l) else none

/-- Model of Python `int(s)`: optional surrounding whitespace, optional
sign, then decimal digits. -/
def parsePyInt (s : String) : Option Int :=
  match pyStripL s.data with
  | [] => none
  | c :: rest =>
    if c = '+' then (parseDigits rest).map Int.ofNat
    else if c = '-' then (parseDigits rest).map (fun n => -(n : Int))
    else (parseDigits (c :: rest)).map Int.ofNat

/-! ### Lemmas about the string primitives -/

theorem dropWhile_idem (p : Char → Bool) (l : List Char) :
    (l.dropWhile p).dropWhile p = l.dropWhile p := by
  induction l with
  | nil => rfl
  | cons a t ih =>
    by_cases h : p a
    · simp [List.dropWhile_cons, h, ih]
    · simp [List.dropWhile_cons, h]

theorem length_dropWhile_le (p : Char → Bool) (l : List Char) :
    (l.dropWhile p).length ≤ l.length := by
  induction l with
  | nil => simp
  | cons a t ih =>
    by_cases h : p a
    · simp only [List.dropWhile_cons, h, if_true, List.length_cons]
      omega
    · simp [List.dropWhile_cons, h]

theorem dropWhile_eq_self_of_split {p : Char → Bool} {u t v : List Char}
    (hv : v.dropWhile p = v) (he : v = u ++ t) : u.dropWhile p = u := by
  cases u with
  | nil => rfl
  | cons a ua =>
    subst he
    by_cases h' : p a
    · exfalso
      rw [List.cons_append, List.dropWhile_cons, if_pos h'] at hv
      have h1 := congrArg List.length hv
      have h2 := length_dropWhile_le p (ua ++ t)
      simp only [List.length_cons] at h1
      omega
    · simp [List.dropWhile_cons, h']

theorem pyStripL_idem (l : List Char) : pyStripL (pyStripL l) = pyStripL l := by
  have base : stripLead (stripLead l) = stripLead l := dropWhile_idem isPyWs l
  have hdef : pyStripL l = ((stripLead l).reverse.dropWhile isPyWs).reverse := rfl
  have hsplit : stripLead l =
      pyStripL l ++ ((stripLead l).reverse.takeWhile isPyWs).reverse := by
    conv_lhs => rw [← List.reverse_reverse (stripLead l)]
    conv_lhs =>
      rw [← List.takeWhile_append_dropWhile (p := isPyWs) (l := (stripLead l).reverse)]
    rw [List.reverse_append, hdef]
  have h1 : (pyStripL l).dropWhile isPyWs = pyStripL l :=
    dropWhile_eq_self_of_split base hsplit
  have h2 : (pyStripL l).reverse.dropWhile isPyWs = (pyStripL l).reverse := by
    rw [hdef, List.reverse_reverse, dropWhile_idem]
  conv_lhs => rw [pyStripL]
  show ((stripLead (pyStripL l)).reverse.dropWhile isPyWs).reverse = pyStripL l
  have h1' : stripLead (pyStripL l) = pyStripL l := h1
  rw [h1', h2, List.reverse_reverse]

theorem pyStrip_idem (s : String) : pyStrip (pyStrip s) = pyStrip s := by
  unfold pyStrip
  congr 1
  exact pyStripL_idem s.data

theorem isPyWs_of_digit {c : Char} (h : c.isDigit = true) : isPyWs c = false := by
  unfold isPyWs
  by_contra hcon
  simp only [Bool.or_eq_true, decide_eq_true_eq, Bool.not_eq_false] at hcon
  rcases hcon with ((((h1 | h1) | h1) | h1) | h1) | h1 <;>
    (subst h1; exact absurd h (by decide))

theorem dropWhile_digits {l : List Char} (h : ∀ c ∈ l, c.isDigit = true) :
    l.dropWhile isPyWs = l := by
  cases l with
  | nil => rfl
  | cons a t =>
    have := isPyWs_of_digit (h a (by simp))
    simp [List.dropWhile_cons, this]

theorem pyStripL_digits {l : List Char} (h : ∀ c ∈ l, c.isDigit = true) :
    pyStripL l = l := by
  unfold pyStripL stripLead
  rw [dropWhile_digits h]
  rw [dropWhile_digits (l := l.reverse) (by intro c hc; exact h c (List.mem_reverse.mp hc))]
  exact List.reverse_reverse l

theorem digitChar_toNat {d : Nat} (h : d < 10) : (digitChar d).toNat = 48 + d := by
  interval_cases d <;> rfl

theorem digitChar_isDigit {d : Nat} (h : d < 10) : (digitChar d).isDigit = true := by
  interval_cases d <;> rfl

theorem natDigitsRev_digits (n : Nat) : ∀ c ∈ natDigitsRev n, c.isDigit = true := by
  induction n using Nat.strong_induction_on with
  | _ n ih =>
    cases n with
    | zero => intro c hc; simp [natDigitsRev] at hc
    | succ m =>
      intro c hc
      rw [natDigitsRev] at hc
      rcases List.mem_cons.mp hc with h | h
      · subst h; exact digitChar_isDigit (Nat.mod_lt _ (by omega))
      · exact ih ((m + 1) / 10) (Nat.div_lt_self (Nat.succ_pos m) (by omega)) c h

theorem digitsVal_append_single (l : List Char) (c : Char) :
    digitsVal (l ++ [c]) = 10 * digitsVal l + (c.toNat - 48) := by
  unfold digitsVal
  rw [List.foldl_append]
  rfl

theorem digitsVal_natDigitsRev (n : Nat) :
    digitsVal (natDigitsRev n).reverse = n := by
  induction n using Nat.strong_induction_on with
  | _ n ih =>
    cases n with
    | zero => simp [natDigitsRev, digitsVal]
    | succ m =>
      rw [natDigitsRev, List.reverse_cons, digitsVal_append_single,
        ih ((m + 1) / 10) (Nat.div_lt_self (Nat.succ_pos m) (by omega))]
      rw [digitChar_toNat (Nat.mod_lt _ (by omega))]
      omega

theorem natDigitsRev_ne_nil {n : Nat} (h : 0 < n) : natDigitsRev n ≠ [] := by
  cases n with
  | zero => omega
  | succ m => rw [natDigitsRev]; simp

theorem isDigit_ne_plus {c : Char} (h : c.isDigit = true) : c ≠ '+' := by
  intro he; subst he; simp [Char.isDigit] at h

theorem isDigit_ne_minus {c : Char} (h : c.isDigit = true) : c ≠ '-' := by
  intro he; subst he; simp [Char.isDigit] at h

/-- Python round trip: `int(str(i)) = i` for a positive integer. -/
theorem parsePyInt_printInt {i : Int} (h : 1 ≤ i) :
    parsePyInt (printInt i) = some i := by
  have hneg : ¬ i < 0 := by omega
  have hpos : 0 < i.toNat := by omega
  have hne : i.toNat ≠ 0 := by omega
  unfold printInt printNat
  simp only [hneg, if_false, hne, if_false]
  unfold parsePyInt
  have hdata : (String.mk (natDigitsRev i.toNat).reverse).data = (natDigitsRev i.toNat).reverse := rfl
  rw [hdata]
  have hdig : ∀ c ∈ (natDigitsRev i.toNat).reverse, c.isDigit = true := by
    intro c hc
    exact natDigitsRev_digits i.toNat c (List.mem_reverse.mp hc)
  rw [pyStripL_digits hdig]
  have hnn : (natDigitsRev i.toNat).reverse ≠ [] := by
    intro hcon
    exact natDigitsRev_ne_nil hpos (by simpa using congrArg List.reverse hcon)
  cases hk : (natDigitsRev i.toNat).reverse with
  | nil => exact absurd hk hnn
  | cons c rest =>
    have hcdig : c.isDigit = true := hdig c (by rw [hk]; simp)
    simp only [isDigit_ne_plus hcdig, if_false, isDigit_ne_minus hcdig, if_false]
    have hall : (c :: rest).all Char.isDigit = true := by
      rw [List.all_eq_true]
      intro x hx
      exact hdig x (by rw [hk]; exact hx)
    unfold parseDigits
    simp only [ne_eq, reduceCtorEq, not_false_eq_true, hall, and_true, if_true, true_and]
    rw [← hk, digitsVal_natDigitsRev]
    simp [Option.map_some]
    omega

/-! ## Authenticated HTTP gateway (`celebi/astonish/client.py`)

`AstonishClient.get` wrapped in
`backoff.on_exception(backoff.constant, LoginFailedError, interval=0,
max_tries=2, on_backoff=_on_login_failed)`.

The network is an environment of oracles: `responses n` is the response
to the `n`-th HTTP GET issued by this client, `loginOk n` says whether
the `n`-th login POST sets the `member_id` cookie (the success signal
checked by `AstonishClient.login`).  The mutable session is a state:
whether the cookie jar holds the `session_id`/`pass_hash` session
cookies (`_has_session_cookies`), and counters of login POSTs and GETs
performed so far. -/

/-- A URL as queried by the client: its decoded query string,
first-occurrence lookup (yarl `url.query.get`). -/
structure Url where
  query : List (String × String)
deriving DecidableEq

def queryGet (q : List (String × String)) (k : String) : Option String :=
  (q.find? (fun p => p.1 == k)).map (·.2)

/-- A parsed HTML document, as far as the gateway inspects it: the unique
`#mobile-menu-activate > li[title="user profile"] > a[href*="showuser="]`
anchor's URL when exactly one exists (`none` models the destructuring
`(a,) = doc.cssselect(...)` raising `ValueError`), plus an opaque tag
standing for the rest of the document. -/
structure Doc where
  nav : Option Url
  contentTag : Nat
deriving DecidableEq

/-- `AstonishClient._is_logged_in`: the `showuser` query parameter of the
navigation profile link, defaulted to `'0'`, must differ from `'0'`.
`none` models the `ValueError` raised when the anchor is not unique. -/
def isLoggedIn (doc : Doc) : Option Bool :=
  doc.nav.map (fun u => !((queryGet u.query "showuser").getD "0" == "0"))

inductive GetError where
  | loginFailed
  | httpStatus (code : Nat)
  | docShape
deriving DecidableEq

structure HttpResp where
  status : Nat
  doc : Doc
deriving DecidableEq

structure GatewayEnv where
  responses : Nat → HttpResp
  loginOk : Nat → Bool

structure GwState where
  hasCookies : Bool
  logins : Nat
  gets : Nat
deriving DecidableEq

/-- `AstonishClient.login`: one login POST; on success the session
cookies are stored, on failure (`member_id` cookie absent)
`LoginFailedError` is raised (the returned `Bool`). -/
def doLogin (env : GatewayEnv) (st : GwState) : GwState × Bool :=
  let ok := env.loginOk st.logins
  ({ st with logins := st.logins + 1, hasCookies := st.hasCookies || ok }, ok)

/-- The body of `AstonishClient.get` after the pre-login: issue the GET,
`raise_for_status`, parse, and (for `login=True`) raise
`LoginFailedError` when `_is_logged_in` is false. -/
def fetchStep (env : GatewayEnv) (login : Bool) (st : GwState) :
    GwState × Except GetError Doc :=
  if 400 ≤ (env.responses st.gets).status then
    ({ st with gets := st.gets + 1 }, .error (.httpStatus (env.responses st.gets).status))
  else if login then
    match isLoggedIn (env.responses st.gets).doc with
    | none => ({ st with gets := st.gets + 1 }, .error .docShape)
    | some true => ({ st with gets := st.gets + 1 }, .ok (env.responses st.gets).doc)
    | some false => ({ st with gets := st.gets + 1 }, .error .loginFailed)
  else ({ st with gets := st.gets + 1 }, .ok (env.responses st.gets).doc)

/-- One try of `AstonishClient.get`: log in first when `login` is
requested and no session cookies are present (a failing login raises
`LoginFailedError`), then `fetchStep`. -/
def getOnce (env : GatewayEnv) (login : Bool) (st : GwState) :
    GwState × Except GetError Doc :=
  if login && !st.hasCookies then
    if (doLogin env st).2 then fetchStep env login (doLogin env st).1
    else ((doLogin env st).1, .error .loginFailed)
  else fetchStep env login st

/-- The `backoff.on_exception` combinator specialised as on `get`:
`remaining` tries are left (`max_tries` counts the first try); a
`LoginFailedError` with tries remaining runs the `on_backoff` handler
(`_on_login_failed`, i.e. one `login()` call — an exception raised by the
handler propagates immediately) and retries; any other outcome is
returned as is. -/
def backoffRun (env : GatewayEnv) (login : Bool) :
    Nat → GwState → GwState × Except GetError Doc
  | 0, st => (st, .error .loginFailed)
  | remaining + 1, st =>
    match getOnce env login st with
    | (st1, .error .loginFailed) =>
      if remaining = 0 then (st1, .error .loginFailed)
      else if (doLogin env st1).2 then backoffRun env login remaining (doLogin env st1).1
      else ((doLogin env st1).1, .error .loginFailed)
    | r => r

/-- `AstonishClient.get` as decorated: `max_tries = 2`. -/
def gatewayGet (env : GatewayEnv) (login : Bool) (st : GwState) :
    GwState × Except GetError Doc :=
  backoffRun env login 2 st

/-! ## Mod-CP edit-form parsing and `get_character`
(`celebi/astonish/client.py`)

The edit-user page is embedded as the list of `div.maintitle` texts and
the list of the document's forms, each form carrying exactly the parts
`_parse_modcp_fields` inspects.  `get_character`'s two concurrent
sub-fetches are modelled sequentially (mod-CP page first); the gateway
layer is abstracted to "the parsed document the forum serves for this
member ID", and each sub-fetch counts as one network request. -/

/-- One HTML `<form>`, as `_parse_modcp_fields` queries it: `name`
attribute, method, the `action` URL split into origin / path / query,
and the flat field mapping `dict(form.fields)`. -/
structure FormModel where
  nameAttr : Option String
  method : String
  actionOrigin : String
  actionPath : String
  actionQuery : List (String × String)
  fields : List (String × String)
deriving DecidableEq

/-- An edit-user ("Mod CP") page: texts of the `div.maintitle` elements
(`div.text or ''`) and the document's forms, in document order. -/
structure ModcpDoc where
  maintitles : List String
  forms : List FormModel
deriving DecidableEq

def baseUrlOrigin : String := "https://astonish.jcink.net"

/-- The regex `^Edit a users profile: (?P<username>.+)$` (IGNORECASE,
`fullmatch`): a case-insensitive literal prefix, then a nonempty
remainder with no newline. -/
def matchEditTitle (s : String) : Option String :=
  let pre := "edit a users profile: "
  let n := pre.data.length
  if listStarts pre.data (pyLower s).data ∧ s.data.length > n
      ∧ (s.data.drop n).all (· ≠ '\n') then
    some ⟨s.data.drop n⟩
  else none

/-- The `for div in doc.cssselect('div.maintitle')` loop: first matching
title wins, `else` raises `ValueError('Username not found')`. -/
def findUsername : List String → Option String
  | [] => none
  | t :: ts =>
    match matchEditTitle t with
    | some u => some u
    | none => findUsername ts

/-- The predicate selecting the target form: the conjunction tested by
`_parse_modcp_fields` on each `doc.forms` entry. -/
def isTargetForm (f : FormModel) : Bool :=
  f.nameAttr == some "ibform"
    && pyLower f.method == "post"
    && f.actionOrigin == baseUrlOrigin
    && f.actionPath == "/index.php"
    && queryGet f.actionQuery "act" == some "modcp"
    && queryGet f.actionQuery "CODE" == some "compedit"
    && (queryGet f.actionQuery "memberid").isSome

inductive ModcpErr where
  /-- `ValueError('Username not found')` -/
  | usernameNotFound
  /-- `ElementNotFoundError('<form name="ibform"...>')` -/
  | formNotFound
  /-- `ValueError` from `int(...)` on a non-numeric `memberid`. -/
  | badMemberId
deriving DecidableEq

/-- The parsed result: the form's field mapping plus the synthetic
fields (`username`, `id`; the `$action` URL is carried as its query). -/
structure ModcpData where
  username : String
  id : Int
  formFields : List (String × String)
deriving DecidableEq

/-- `AstonishClient._parse_modcp_fields`. -/
def parseModcpFields (doc : ModcpDoc) : Except ModcpErr ModcpData :=
  match findUsername doc.maintitles with
  | none => .error .usernameNotFound
  | some username =>
    match doc.forms.find? isTargetForm with
    | none => .error .formNotFound
    | some f =>
      match parsePyInt ((queryGet f.actionQuery "memberid").getD "") with
      | none => .error .badMemberId
      | some mid =>
        .ok { username := username, id := mid, formFields := f.fields }

/-- A public profile page, as far as the client inspects it: the text
content of the unique `#main-profile-trainer-class > span.description`
element when exactly one exists (`none` models the destructuring
`ValueError`). -/
structure ProfileDoc where
  trainerClassDesc : Option String
deriving DecidableEq

/-- `AstonishClient._parse_character_group`. -/
def parseCharacterGroup (doc : ProfileDoc) : Option String :=
  doc.trainerClassDesc.map pyStrip

/-- The `Character` record, abstracted: identity (`id`, strict positive),
`username`, `group`, and the remaining validated form fields carried
verbatim (their individual pydantic coercions are not load-bearing for
the claims below and are not modelled). -/
structure Character where
  id : Int
  username : String
  group : String
  formFields : List (String × String)
deriving DecidableEq

/-! ### The character cache (`cachetools.TTLCache(maxsize=256, ttl=15*60)`)

Time is a natural number of seconds.  An entry expires once
`now ≥ insertion time + ttl`; `__setitem__` drops expired entries,
replaces the key, appends the fresh entry and evicts oldest-first down
to `maxsize`. -/

def cacheTTL : Nat := 15 * 60

def cacheMaxsize : Nat := 256

structure CacheEntry where
  key : Int
  value : Character
  expires : Nat
deriving DecidableEq

abbrev CharacterCache : Type := List CacheEntry

def cacheLookup (c : CharacterCache) (k : Int) (now : Nat) : Option Character :=
  match c.find? (fun e => e.key == k) with
  | some e => if now < e.expires then some e.value else none
  | none => none

/-- The entries surviving a `__setitem__` of key `k` at time `now`:
expired entries are dropped and the key being written is replaced. -/
def cacheLive (c : CharacterCache) (k : Int) (now : Nat) : CharacterCache :=
  (c.filter (fun e => decide (now < e.expires))).filter (fun e => !(e.key == k))

def cacheInsert (c : CharacterCache) (k : Int) (v : Character) (now : Nat) :
    CharacterCache :=
  (cacheLive c k now ++ [({ key := k, value := v, expires := now + cacheTTL } : CacheEntry)]).drop
    ((cacheLive c k now ++ [({ key := k, value := v, expires := now + cacheTTL } : CacheEntry)]).length
      - cacheMaxsize)

/-- The forum, as `get_character` consumes it: the parsed edit-user page
and the parsed public profile page served for a member ID.  (The
authenticated-gateway layer below these fetches is modelled separately
as `gatewayGet`; here both sub-fetches are assumed to come back.) -/
structure ClientEnv where
  editPage : Int → ModcpDoc
  profilePage : Int → ProfileDoc

structure ClientState where
  cache : CharacterCache
  fetches : Nat
deriving DecidableEq

inductive ClientErr where
  /-- `ValueError(f'Member not found: {memberid}')` — the
  `CharacterNotFound` condition, carrying the requested member ID. -/
  | memberNotFound (id : Int)
  /-- An uncaught parse `ValueError` propagating raw. -/
  | parseFailed (e : ModcpErr)
  /-- `ValueError` from the trainer-group destructuring. -/
  | groupNotFound
  /-- `assert synthetic['id'] == memberid` failing. -/
  | assertIdMismatch
  /-- pydantic `ValidationError` from `Character.model_validate`. -/
  | validationFailed
deriving DecidableEq

/-- `AstonishClient.get_character(memberid, cached=...)` at time `now`:
cache probe (`cached` only), concurrent fetch of mod-CP fields and
trainer group (two GETs), translation of the form-not-found signal into
the member-not-found error, the ID assertion, `Character` construction,
and the write-through into the cache. -/
def getCharacter (env : ClientEnv) (st : ClientState) (memberid : Int)
    (cached : Bool) (now : Nat) : ClientState × Except ClientErr Character :=
  match (if cached then cacheLookup st.cache memberid now else none) with
  | some c => (st, .ok c)
  | none =>
    match parseModcpFields (env.editPage memberid) with
    | .error .formNotFound =>
      ({ st with fetches := st.fetches + 2 }, .error (.memberNotFound memberid))
    | .error e =>
      ({ st with fetches := st.fetches + 2 }, .error (.parseFailed e))
    | .ok data =>
      match parseCharacterGroup (env.profilePage memberid) with
      | none => ({ st with fetches := st.fetches + 2 }, .error .groupNotFound)
      | some grp =>
        if data.id == memberid then
          if (0 : Int) < data.id then
            ({ st with fetches := st.fetches + 2,
                       cache := cacheInsert st.cache data.id
                         { id := data.id, username := data.username,
                           group := grp, formFields := data.formFields } now },
             .ok { id := data.id, username := data.username,
                   group := grp, formFields := data.formFields })
          else ({ st with fetches := st.fetches + 2 }, .error .validationFailed)
        else ({ st with fetches := st.fetches + 2 }, .error .assertIdMismatch)

/-! ## Personal-computer Pokemon blocks (`celebi/astonish/models.py`)

A `.pkmn-display` block is embedded as the pieces `Pokemon.parse_html`
queries: the block's `class` attribute, its `data-pkmn-id` attribute,
the unique `img[src]`'s `src` (`none` when the destructuring fails) and
the unique `div.pkmn-name`'s text content.  `Pokemon.model_dump_html`
builds exactly such a block; the string serialisation by
`lxml.etree.tostring` and its re-parsing by `fragments_fromstring` are
identified with the block structure itself. -/

structure PkmnElement where
  attrClass : Option String
  dataPkmnId : Option String
  imgSrc : Option String
  nameText : Option String
deriving DecidableEq

/-- yarl `URL(s).name`: the last segment of the path part. -/
def urlName (s : String) : List Char :=
  ((s.data.takeWhile (fun c => c ≠ '?' ∧ c ≠ '#')).reverse.takeWhile (· ≠ '/')).reverse

/-- `src.name.removesuffix(src.suffix)`: the file name minus its
extension (an initial dot does not start an extension). -/
def urlStem (s : String) : String :=
  let n := urlName s
  match n.reverse.dropWhile (· ≠ '.') with
  | [] => ⟨n⟩
  | _ :: rest => if rest.isEmpty then ⟨n⟩ else ⟨rest.reverse⟩

structure PokemonM where
  id : Int
  name : String
  shiny : Bool
  custom_sprite_url : Option String
deriving DecidableEq

/-- The `OptionalHttpUrl` wrap validator: falsy (empty) becomes `None`,
otherwise the value must be a valid http(s) URL. -/
def validateOptUrl (s : String) : Option (Option String) :=
  if s = "" then some none
  else if isHttpUrl s then some (some s) else none

/-- `Pokemon.parse_html`: unique `img[src]`; ID from the `data-pkmn-id`
attribute, falling back to the `src` file-name stem; unique
`div.pkmn-name` text; `shiny` iff the substring `'shiny'` occurs in the
`class` attribute; pydantic validation (`PositiveInt`, stripped name,
`OptionalHttpUrl` on the raw `src`). -/
def parsePokemon (e : PkmnElement) : Option PokemonM :=
  match e.imgSrc with
  | none => none
  | some src =>
    match (match e.dataPkmnId with
           | some v => parsePyInt v
           | none => parsePyInt (urlStem src)) with
    | none => none
    | some id =>
      match e.nameText with
      | none => none
      | some rawName =>
        if 0 < id then
          match validateOptUrl src with
          | none => none
          | some cu =>
            some { id := id, name := pyStrip rawName,
                   shiny := (match e.attrClass with
                             | some cl => pyContains "shiny" cl
                             | none => false),
                   custom_sprite_url := cu }
        else none

/-- The computed official-artwork URL in `Pokemon.sprite_url`. -/
def officialArtworkUrl (id : Int) (shiny : Bool) : String :=
  "https://raw.githubusercontent.com/PokeAPI/sprites/master/sprites/pokemon/other/official-artwork"
    ++ (if shiny then "/shiny" else "") ++ "/" ++ printInt id ++ ".png"

/-- `Pokemon.sprite_url`: the custom sprite URL when truthy, else the
computed official-artwork URL. -/
def spriteUrl (p : PokemonM) : String :=
  match p.custom_sprite_url with
  | some u => if u = "" then officialArtworkUrl p.id p.shiny else u
  | none => officialArtworkUrl p.id p.shiny

/-- `Pokemon.model_dump_html` at block level: class
`pkmn-display[ shiny]`, `data-pkmn-id`, the name text, `img src`. -/
def dumpPokemon (p : PokemonM) : PkmnElement :=
  { attrClass := some (if p.shiny then "pkmn-display shiny" else "pkmn-display"),
    dataPkmnId := some (printInt p.id),
    imgSrc := some (spriteUrl p),
    nameText := some p.name }

/-- `PersonalComputer` parsing: each `.pkmn-display` block in document
order; a failing block fails the whole parse. -/
def parsePokemonList : List PkmnElement → Option (List PokemonM)
  | [] => some []
  | e :: es =>
    match parsePokemon e with
    | none => none
    | some p =>
      match parsePokemonList es with
      | none => none
      | some ps => some (p :: ps)

/-! ## Inventory parsing (`celebi/astonish/models.py`) -/

structure ImgModel where
  src : Option String
deriving DecidableEq

/-- A `<td>` cell: its text content and its first `<img>` child. -/
structure TdModel where
  text : String
  img : Option ImgModel
deriving DecidableEq

/-- A `<tr>` row: its text content and its `<td>` children. -/
structure TrModel where
  text : String
  tds : List TdModel
deriving DecidableEq

/-- The store page, as `Inventory.parse_html` queries it: the owner
anchor's text (`tr:nth-child(1) > td:nth-child(2) > a` in the unique
`#ucpcontent > table`) and all the table's rows in order. -/
structure InventoryDoc where
  ownerText : String
  rows : List TrModel
deriving DecidableEq

structure ItemStackM where
  icon_url : String
  name : String
  description : String
  stock : Int
deriving DecidableEq

structure InventoryM where
  owner : String
  items : List ItemStackM
deriving DecidableEq

inductive InvErr where
  /-- Unpacking `findall('td')` into four cells failed. -/
  | rowShape
  /-- `ValueError('Missing <img> tag for item icon')` -/
  | iconMissing
  /-- `KeyError` on `img.attrib['src']` -/
  | srcMissing
  /-- pydantic `HttpUrl` rejected the icon URL. -/
  | badUrl
  /-- pydantic `PositiveInt` rejected the stock cell. -/
  | badStock
  /-- `IndexError` on `trs[0]` when no data rows exist. -/
  | noDataRow
deriving DecidableEq

/-- `ItemStack.parse_html` on one data row. -/
def parseItemStack (tr : TrModel) : Except InvErr ItemStackM :=
  match tr.tds with
  | [icon, nameTd, descTd, stockTd] =>
    match icon.img with
    | none => .error .iconMissing
    | some im =>
      match im.src with
      | none => .error .srcMissing
      | some src =>
        if isHttpUrl src then
          match parsePyInt stockTd.text with
          | some n =>
            if 0 < n then
              .ok { icon_url := src, name := pyStrip nameTd.text,
                    description := pyStrip descTd.text, stock := n }
            else .error .badStock
          | none => .error .badStock
        else .error .badUrl
  | _ => .error .rowShape

/-- The `for tr in trs` loop appending `ItemStack.parse_html(tr)`. -/
def mapStacks : List TrModel → Except InvErr (List ItemStackM)
  | [] => .ok []
  | t :: ts =>
    match parseItemStack t with
    | .error e => .error e
    | .ok x =>
      match mapStacks ts with
      | .error e => .error e
      | .ok xs => .ok (x :: xs)

/-- `Inventory.parse_html`: data rows start at row 4; the empty-marker
comparison is on the stripped text content of the first data row. -/
def parseInventory (doc : InventoryDoc) : Except InvErr InventoryM :=
  match doc.rows.drop 3 with
  | [] => .error .noDataRow
  | tr0 :: rest =>
    if pyStrip tr0.text = "Inventory Empty." then
      .ok { owner := pyStrip doc.ownerText, items := [] }
    else
      match mapStacks (tr0 :: rest) with
      | .error e => .error e
      | .ok items => .ok { owner := pyStrip doc.ownerText, items := items }

/-! ## Shop region parsing (`celebi/astonish/shop.py`) -/

/-- A `span.type` element: its `element.text`. -/
structure TypeSpan where
  text : Option String
deriving DecidableEq

/-- A `.catchable-region` element: the unique `.region-title` text
content and the `span.type` children in document order. -/
structure RegionDoc where
  titleText : String
  typeSpans : List TypeSpan
deriving DecidableEq

inductive Rarity where
  | common
  | rare
deriving DecidableEq

structure PokemonTypeM where
  name : String
  rarity : Rarity
deriving DecidableEq

inductive ShopErr where
  /-- `ValueError('Name must not be empty or missing')` -/
  | emptyTypeName
  /-- `ValueError(f'Non-unique PokemonType: ...')` -/
  | duplicateType (name : String)
deriving DecidableEq

def rareSuffix : String := "*"

/-- `_PokemonType.parse_html`: falsy text is an error; the text is
stripped and lowercased; a trailing rarity marker makes the type rare
and is removed.  The constructed `name` is stripped once more by
pydantic at `_PokemonType(...)` construction (`str_strip_whitespace` in
the `BaseModel` config inherited via `FrozenBaseModel`), which matters
when removing the marker exposes trailing whitespace
(`' fire *'` → `'fire '` → `'fire'`). -/
def parsePokemonType (e : TypeSpan) : Except ShopErr PokemonTypeM :=
  match e.text with
  | none => .error .emptyTypeName
  | some raw =>
    if raw = "" then .error .emptyTypeName
    else
      let nm := pyLower (pyStrip raw)
      if pyEndsWith nm rareSuffix then
        .ok { name := pyStrip (pyRemoveSuffix nm rareSuffix), rarity := .rare }
      else .ok { name := pyStrip nm, rarity := .common }

/-- The `for child in element.cssselect('span.type')` loop of
`Region.parse_html`, building the insertion-ordered `types` mapping and
failing on a duplicate name. -/
def buildTypes : List TypeSpan → List (String × Rarity) →
    Except ShopErr (List (String × Rarity))
  | [], acc => .ok acc
  | s :: ss, acc =>
    match parsePokemonType s with
    | .error e => .error e
    | .ok t =>
      if acc.any (fun p => p.1 == t.name) then .error (.duplicateType t.name)
      else buildTypes ss (acc ++ [(t.name, t.rarity)])

structure RegionM where
  name : String
  types : List (String × Rarity)
deriving DecidableEq

/-- `Region.parse_html` (the region title element is presupposed
unique, as selected by `(title,) = element.cssselect('.region-title')`). -/
def parseRegion (doc : RegionDoc) : Except ShopErr RegionM :=
  match buildTypes doc.typeSpans [] with
  | .error e => .error e
  | .ok ts => .ok { name := pyStrip doc.titleText, types := ts }

/-! ## The versioned `extra` payload (`celebi/astonish/models.py`)

`Character.extra` is declared `Json[ExtraData]` with the wrap validator
`_validate_extra` short-circuiting the empty string, and `ExtraData` is
`ExtraDataV1` discriminated on `version == 1`.  JSON decoding is
modelled by a small reader covering the JSON subset these payloads use
(strings without escape sequences, integer numbers). -/

inductive JsonV where
  | null
  | bool (b : Bool)
  | num (n : Int)
  | str (s : String)
  | arr (xs : List JsonV)
  | obj (fields : List (String × JsonV))

def jsonWsChar (c : Char) : Bool := c = ' ' || c = '\t' || c = '\n' || c = '\r'

def skipJsonWs (l : List Char) : List Char := l.dropWhile jsonWsChar

def expectChars : List Char → List Char → Option (List Char)
  | [], l => some l
  | _ :: _, [] => none
  | p :: ps, c :: cs => if p = c then expectChars ps cs else none

def parseJsonString (l : List Char) : Option (String × List Char) :=
  let body := l.takeWhile (fun c => c ≠ '"' ∧ c ≠ '\\')
  match l.drop body.length with
  | '"' :: rest => some (⟨body⟩, rest)
  | _ => none

def parseJsonNat (l : List Char) : Option (Nat × List Char) :=
  let ds := l.takeWhile Char.isDigit
  if ds.isEmpty then none else some (digitsVal ds, l.drop ds.length)

def parseJsonNum (l : List Char) : Option (Int × List Char) :=
  match l with
  | '-' :: rest => (parseJsonNat rest).map (fun (n, r) => (-(n : Int), r))
  | _ => (parseJsonNat l).map (fun (n, r) => ((n : Int), r))

mutual

def parseJsonVal : Nat → List Char → Option (JsonV × List Char)
  | 0, _ => none
  | fuel + 1, l =>
    match skipJsonWs l with
    | [] => none
    | c :: rest =>
      if c = 'n' then (expectChars "ull".data rest).map (fun r => (JsonV.null, r))
      else if c = 't' then (expectChars "rue".data rest).map (fun r => (JsonV.bool true, r))
      else if c = 'f' then (expectChars "alse".data rest).map (fun r => (JsonV.bool false, r))
      else if c = '"' then (parseJsonString rest).map (fun x => (JsonV.str x.1, x.2))
      else if c = '[' then
        match skipJsonWs rest with
        | ']' :: r2 => some (JsonV.arr [], r2)
        | l2 => (parseJsonElems fuel l2).map (fun x => (JsonV.arr x.1, x.2))
      else if c = '\x7b' then
        match skipJsonWs rest with
        | '\x7d' :: r2 => some (JsonV.obj [], r2)
        | l2 => (parseJsonMembers fuel l2).map (fun x => (JsonV.obj x.1, x.2))
      else (parseJsonNum (c :: rest)).map (fun x => (JsonV.num x.1, x.2))

def parseJsonElems : Nat → List Char → Option (List JsonV × List Char)
  | 0, _ => none
  | fuel + 1, l =>
    match parseJsonVal fuel l with
    | none => none
    | some (v, r) =>
      match skipJsonWs r with
      | ',' :: r2 => (parseJsonElems fuel r2).map (fun x => (v :: x.1, x.2))
      | ']' :: r2 => some ([v], r2)
      | _ => none

def parseJsonMembers : Nat → List Char → Option (List (String × JsonV) × List Char)
  | 0, _ => none
  | fuel + 1, l =>
    match skipJsonWs l with
    | '"' :: r =>
      match parseJsonString r with
      | none => none
      | some (k, r2) =>
        match skipJsonWs r2 with
        | ':' :: r3 =>
          match parseJsonVal fuel r3 with
          | none => none
          | some (v, r4) =>
            match skipJsonWs r4 with
            | ',' :: r5 => (parseJsonMembers fuel r5).map (fun x => ((k, v) :: x.1, x.2))
            | '\x7d' :: r5 => some ([(k, v)], r5)
            | _ => none
        | _ => none
    | _ => none

end

def jsonDecode (s : String) : Option JsonV :=
  match parseJsonVal (s.data.length + 1) s.data with
  | some (v, r) => if skipJsonWs r = [] then some v else none
  | none => none

structure ExtraDataV1M where
  version : Int
  discord_id : Option Int
deriving DecidableEq

def jfield (fields : List (String × JsonV)) (k : String) : Option JsonV :=
  (fields.find? (fun p => p.1 == k)).map (·.2)

/-- pydantic validation of a decoded payload against
`ExtraData = Annotated[ExtraDataV1, Field(discriminator='version')]`:
an object whose `version` is the literal `1`; `discord_id` is an
optional integer (missing or `null` meaning `None`); other keys are
ignored. -/
def validateExtraV1 (v : JsonV) : Except Unit ExtraDataV1M :=
  match v with
  | .obj fs =>
    match jfield fs "version" with
    | some (.num n) =>
      if n = 1 then
        match jfield fs "discord_id" with
        | none => .ok { version := 1, discord_id := none }
        | some .null => .ok { version := 1, discord_id := none }
        | some (.num d) => .ok { version := 1, discord_id := some d }
        | some (.str s) =>
          match parsePyInt s with
          | some d => .ok { version := 1, discord_id := some d }
          | none => .error ()
        | some _ => .error ()
      else .error ()
    | _ => .error ()
  | _ => .error ()

/-- `Character._validate_extra` composed with the `Json[ExtraData]`
pipeline: the empty string short-circuits to `ExtraDataV1()`; anything
else is JSON-decoded and validated. -/
def validateExtraField (raw : String) : Except Unit ExtraDataV1M :=
  if raw = "" then .ok { version := 1, discord_id := none }
  else
    match jsonDecode raw with
    | none => .error ()
    | some v => validateExtraV1 v


/-! ## Helper lemmas on the gateway -/

theorem fetchStep_state (env : GatewayEnv) (login : Bool) (st : GwState) :
    (fetchStep env login st).1 = { st with gets := st.gets + 1 } := by
  unfold fetchStep
  split
  · rfl
  · split
    · split <;> rfl
    · rfl

theorem getOnce_cookies (env : GatewayEnv) (login : Bool) (st : GwState)
    (h : st.hasCookies = true) :
    (getOnce env login st).1 = { st with gets := st.gets + 1 } := by
  have hcond : (login && !st.hasCookies) = false := by rw [h]; simp
  unfold getOnce
  rw [hcond, if_neg Bool.false_ne_true]
  exact fetchStep_state env login st

theorem getOnce_cookies_logins (env : GatewayEnv) (login : Bool) (st : GwState)
    (h : st.hasCookies = true) :
    (getOnce env login st).1.logins = st.logins := by
  rw [getOnce_cookies env login st h]

theorem backoffRun_one (env : GatewayEnv) (login : Bool) (st : GwState) :
    backoffRun env login 1 st = getOnce env login st := by
  rcases h : getOnce env login st with ⟨st1, r2⟩
  unfold backoffRun
  rw [h]
  cases r2 with
  | error e => cases e <;> simp
  | ok d => simp

theorem getOnce_bounds (env : GatewayEnv) (login : Bool) (st : GwState) :
    (getOnce env login st).1.gets ≤ st.gets + 1
    ∧ (getOnce env login st).1.logins ≤ st.logins + 1 := by
  unfold getOnce
  split
  · split
    · rw [fetchStep_state]
      unfold doLogin
      constructor <;> simp
    · unfold doLogin
      constructor <;> simp
  · rw [fetchStep_state]
    constructor <;> simp

theorem gatewayGet_bounds (env : GatewayEnv) (login : Bool) (st : GwState) :
    (gatewayGet env login st).1.gets ≤ st.gets + 2
    ∧ (gatewayGet env login st).1.logins ≤ st.logins + 2 := by
  unfold gatewayGet backoffRun
  rcases h : getOnce env login st with ⟨st1, r2⟩
  have hb := getOnce_bounds env login st
  rw [h] at hb
  simp only at hb
  cases r2 with
  | error e =>
    cases e with
    | loginFailed =>
      simp only [if_neg (by omega : ¬ (1 : Nat) = 0)]
      by_cases hok : (doLogin env st1).2 = true
      · simp only [hok, if_true]
        rw [backoffRun_one]
        have hck : (doLogin env st1).1.hasCookies = true := by
          unfold doLogin at hok ⊢
          simp only at hok
          simp [hok]
        rw [getOnce_cookies env login _ hck]
        unfold doLogin
        constructor <;> simp <;> omega
      · simp only [Bool.not_eq_true] at hok
        simp only [hok, Bool.false_eq_true, if_false]
        unfold doLogin
        constructor <;> simp <;> omega
    | httpStatus code => constructor <;> simp <;> omega
    | docShape => constructor <;> simp <;> omega
  | ok d => constructor <;> simp <;> omega

/-- C1: on a `LoginFailed` `get`, the gateway re-logs-in exactly once and
replays the request exactly once; the replay's outcome (its document on
success, the propagated `LoginFailed` if the session still reports
logged out) is returned as is; and globally no gateway call ever
performs more than two HTTP GETs or two login POSTs (never more than one
retry, never a loop). -/
theorem c1_gateway_retry_once (env : GatewayEnv) (st0 st1 : GwState)
    (h1 : getOnce env true st0 = (st1, .error .loginFailed))
    (h2 : env.loginOk st1.logins = true) :
    gatewayGet env true st0 = getOnce env true (doLogin env st1).1
    ∧ (doLogin env st1).1.logins = st1.logins + 1
    ∧ (doLogin env st1).1.gets = st1.gets
    ∧ (getOnce env true (doLogin env st1).1).1.gets = st1.gets + 1
    ∧ (getOnce env true (doLogin env st1).1).1.logins = st1.logins + 1
    ∧ (∀ (envA : GatewayEnv) (lg : Bool) (stA : GwState),
        (gatewayGet envA lg stA).1.gets ≤ stA.gets + 2
        ∧ (gatewayGet envA lg stA).1.logins ≤ stA.logins + 2) := by
  have hL2 : (doLogin env st1).2 = true := by
    unfold doLogin
    simpa using h2
  have hck : (doLogin env st1).1.hasCookies = true := by
    unfold doLogin
    simp [h2]
  have hst : (doLogin env st1).1 =
      { st1 with logins := st1.logins + 1,
                 hasCookies := st1.hasCookies || env.loginOk st1.logins } := rfl
  refine ⟨?_, by rw [hst], by rw [hst], ?_, ?_,
    fun envA lg stA => gatewayGet_bounds envA lg stA⟩
  · unfold gatewayGet backoffRun
    rw [h1]
    simp only [if_neg (by omega : ¬ (1 : Nat) = 0), hL2, if_true]
    exact backoffRun_one env true (doLogin env st1).1
  · rw [getOnce_cookies env true _ hck, hst]
  · rw [getOnce_cookies_logins env true _ hck, hst]

def docC1Guest : Doc := { nav := some { query := [("showuser", "0")] }, contentTag := 0 }

def docC1User : Doc := { nav := some { query := [("showuser", "45")] }, contentTag := 1 }

def envC1 : GatewayEnv :=
  { responses := fun n =>
      if n = 0 then { status := 200, doc := docC1Guest }
      else { status := 200, doc := docC1User },
    loginOk := fun _ => true }

theorem c1_gateway_retry_once_witness :
    getOnce envC1 true { hasCookies := true, logins := 0, gets := 0 } =
      ({ hasCookies := true, logins := 0, gets := 1 }, .error .loginFailed)
    ∧ envC1.loginOk 0 = true
    ∧ gatewayGet envC1 true { hasCookies := true, logins := 0, gets := 0 } =
        getOnce envC1 true (doLogin envC1 { hasCookies := true, logins := 0, gets := 1 }).1 := by
  refine ⟨by decide, by decide, ?_⟩
  exact (c1_gateway_retry_once envC1
    { hasCookies := true, logins := 0, gets := 0 }
    { hasCookies := true, logins := 0, gets := 1 }
    (by decide) (by decide)).1

/-- C2: `_is_logged_in` is true exactly when the navigation profile
link's `showuser` query parameter (defaulted to the guest sentinel `'0'`
when absent) differs from `'0'`; and a `login=True` `get` whose HTTP
status is a success but whose document fails that check raises
`LoginFailed` even though session cookies are present. -/
theorem fetchStep_guest (env : GatewayEnv) (st : GwState)
    (hstatus : (env.responses st.gets).status < 400)
    (hguest : isLoggedIn (env.responses st.gets).doc = some false) :
    fetchStep env true st = ({ st with gets := st.gets + 1 }, .error .loginFailed) := by
  unfold fetchStep
  rw [if_neg (by omega : ¬ 400 ≤ (env.responses st.gets).status), hguest]
  simp

theorem c2_logged_in_check :
    (∀ (doc : Doc) (u : Url), doc.nav = some u →
      (isLoggedIn doc = some true ↔ (queryGet u.query "showuser").getD "0" ≠ "0"))
    ∧ (∀ (env : GatewayEnv) (st : GwState),
        st.hasCookies = true →
        (env.responses st.gets).status < 400 →
        isLoggedIn (env.responses st.gets).doc = some false →
        (getOnce env true st).2 = .error .loginFailed
        ∧ (getOnce env true st).1 = { st with gets := st.gets + 1 }) := by
  constructor
  · intro doc u h
    have hval : isLoggedIn doc =
        some (!((queryGet u.query "showuser").getD "0" == "0")) := by
      unfold isLoggedIn
      rw [h]
      rfl
    rw [hval]
    constructor
    · intro hb
      have hb' : (!((queryGet u.query "showuser").getD "0" == "0")) = true :=
        Option.some.inj hb
      intro hcon
      rw [hcon] at hb'
      simp at hb'
    · intro hne
      have hb : ((queryGet u.query "showuser").getD "0" == "0") = false :=
        beq_eq_false_iff_ne.mpr hne
      rw [hb]
      rfl
  · intro env st hck hstatus hguest
    have hcond : (true && !st.hasCookies) = false := by rw [hck]; simp
    constructor
    · unfold getOnce
      rw [hcond, if_neg Bool.false_ne_true, fetchStep_guest env st hstatus hguest]
    · exact getOnce_cookies env true st hck

def docC2Guest : Doc :=
  { nav := some { query := [("act", "idx"), ("showuser", "0")] }, contentTag := 7 }

def envC2 : GatewayEnv :=
  { responses := fun _ => { status := 200, doc := docC2Guest },
    loginOk := fun _ => true }

theorem c2_logged_in_check_witness :
    docC2Guest.nav = some { query := [("act", "idx"), ("showuser", "0")] }
    ∧ (isLoggedIn docC2Guest = some true ↔
        (queryGet [("act", "idx"), ("showuser", "0")] "showuser").getD "0" ≠ "0")
    ∧ (getOnce envC2 true { hasCookies := true, logins := 3, gets := 5 }).2 =
        .error .loginFailed := by
  refine ⟨by decide, ?_, ?_⟩
  · exact (c2_logged_in_check).1 docC2Guest _ (by decide)
  · exact ((c2_logged_in_check).2 envC2 { hasCookies := true, logins := 3, gets := 5 }
      (by decide) (by decide) (by decide)).1

/-! ## Helper lemmas on the character cache and `get_character` -/

theorem find?_all_false {p : CacheEntry → Bool} {l1 l2 : List CacheEntry}
    (h : ∀ x ∈ l1, p x = false) : (l1 ++ l2).find? p = l2.find? p := by
  induction l1 with
  | nil => rfl
  | cons a t ih =>
    have ha : p a = false := h a (by simp)
    rw [List.cons_append, List.find?_cons_of_neg _ (by simp [ha])]
    exact ih (fun x hx => h x (by simp [hx]))

theorem cacheLookup_insert_self (c : CharacterCache) (k : Int) (v : Character)
    (now now2 : Nat) :
    cacheLookup (cacheInsert c k v now) k now2 =
      if now2 < now + cacheTTL then some v else none := by
  unfold cacheInsert cacheLookup
  have hnotk : ∀ x ∈ cacheLive c k now, (x.key == k) = false := by
    intro x hx
    have := (List.mem_filter.mp hx).2
    simpa using this
  have hlen : (cacheLive c k now ++
      [({ key := k, value := v, expires := now + cacheTTL } : CacheEntry)]).length - cacheMaxsize
      ≤ (cacheLive c k now).length := by
    simp only [List.length_append, List.length_cons, List.length_nil, cacheMaxsize]
    omega
  rw [List.drop_append_of_le_length hlen]
  rw [find?_all_false (fun x hx => hnotk x (List.mem_of_mem_drop hx))]
  rw [List.find?_cons_of_pos _ (by simp)]

theorem cacheLookup_some_key {c : CharacterCache} {k : Int} {now : Nat}
    {v : Character} (h : cacheLookup c k now = some v)
    (hw : ∀ e ∈ c, e.key = e.value.id) : v.id = k := by
  unfold cacheLookup at h
  rcases hf : c.find? (fun e => e.key == k) with _ | e
  · rw [hf] at h; simp at h
  · rw [hf] at h
    dsimp only at h
    have hk : (e.key == k) = true := List.find?_some (p := fun (x : CacheEntry) => x.key == k) hf
    have hmem : e ∈ c := List.mem_of_find?_eq_some hf
    by_cases ht : now < e.expires
    · rw [if_pos ht] at h
      rw [(Option.some.inj h).symm, ← hw e hmem]
      exact eq_of_beq hk
    · rw [if_neg ht] at h; simp at h

theorem cacheWF_insert {c : CharacterCache} {k : Int} {v : Character} {now : Nat}
    (hw : ∀ e ∈ c, e.key = e.value.id) (hkv : k = v.id) :
    ∀ e ∈ cacheInsert c k v now, e.key = e.value.id := by
  intro e he
  unfold cacheInsert at he
  have he2 := List.mem_of_mem_drop he
  rcases List.mem_append.mp he2 with h1 | h1
  · unfold cacheLive at h1
    exact hw e (List.mem_filter.mp (List.mem_filter.mp h1).1).1
  · have : e = { key := k, value := v, expires := now + cacheTTL } := by simpa using h1
    rw [this]
    exact hkv

theorem getCharacter_ok_shape {env : ClientEnv} {st : ClientState} {memberid : Int}
    {now : Nat} {st1 : ClientState} {c : Character}
    (h : getCharacter env st memberid false now = (st1, .ok c)) :
    c.id = memberid
    ∧ st1.cache = cacheInsert st.cache memberid c now
    ∧ st1.fetches = st.fetches + 2 := by
  unfold getCharacter at h
  rw [if_neg Bool.false_ne_true] at h
  dsimp only at h
  rcases hp : parseModcpFields (env.editPage memberid) with e | data
  · rw [hp] at h
    cases e <;> simp at h
  · rw [hp] at h
    rcases hg : parseCharacterGroup (env.profilePage memberid) with _ | grp
    · rw [hg] at h; simp at h
    · rw [hg] at h
      dsimp only at h
      by_cases hid : (data.id == memberid) = true
      · rw [hid] at h
        rw [if_pos rfl] at h
        by_cases hpos : (0 : Int) < data.id
        · rw [if_pos hpos] at h
          have hpair := Prod.mk.injEq .. ▸ h
          obtain ⟨hst1, hc⟩ := Prod.mk.inj h
          have hc' := Except.ok.inj hc
          have hideq : data.id = memberid := eq_of_beq hid
          constructor
          · rw [← hc']
            exact hideq
          · constructor
            · rw [← hst1]
              rw [← hc', ← hideq]
            · rw [← hst1]
        · rw [if_neg hpos] at h
          simp at h
      · have hid' : (data.id == memberid) = false := by
          cases hb : data.id == memberid
          · rfl
          · exact absurd hb hid
        rw [hid'] at h
        rw [if_neg Bool.false_ne_true] at h
        simp at h

theorem getCharacter_miss_fetches (env : ClientEnv) (st : ClientState)
    (memberid : Int) (cached : Bool) (now : Nat)
    (h : (if cached then cacheLookup st.cache memberid now else none) = none) :
    (getCharacter env st memberid cached now).1.fetches = st.fetches + 2 := by
  unfold getCharacter
  rw [h]
  rcases hp : parseModcpFields (env.editPage memberid) with e | data
  · cases e <;> rfl
  · rcases hg : parseCharacterGroup (env.profilePage memberid) with _ | grp
    · rfl
    · dsimp only
      by_cases hid : (data.id == memberid) = true
      · rw [hid, if_pos rfl]
        by_cases hpos : (0 : Int) < data.id
        · rw [if_pos hpos]
        · rw [if_neg hpos]
      · have hid' : (data.id == memberid) = false := by
          cases hb : data.id == memberid
          · rfl
          · exact absurd hb hid
        rw [hid', if_neg Bool.false_ne_true]

theorem getCharacter_ok_id {env : ClientEnv} {st : ClientState} {memberid : Int}
    {cached : Bool} {now : Nat} {c : Character}
    (hw : ∀ e ∈ st.cache, e.key = e.value.id)
    (h : (getCharacter env st memberid cached now).2 = .ok c) :
    c.id = memberid := by
  unfold getCharacter at h
  rcases hprobe : (if cached then cacheLookup st.cache memberid now else none)
      with _ | c'
  · rw [hprobe] at h
    rcases hp : parseModcpFields (env.editPage memberid) with e | data
    · rw [hp] at h
      cases e <;> simp at h
    · rw [hp] at h
      rcases hg : parseCharacterGroup (env.profilePage memberid) with _ | grp
      · rw [hg] at h; simp at h
      · rw [hg] at h
        dsimp only at h
        by_cases hid : (data.id == memberid) = true
        · rw [hid, if_pos rfl] at h
          by_cases hpos : (0 : Int) < data.id
          · rw [if_pos hpos] at h
            have hc := Except.ok.inj h
            rw [← hc]
            exact eq_of_beq hid
          · rw [if_neg hpos] at h
            simp at h
        · have hid' : (data.id == memberid) = false := by
            cases hb : data.id == memberid
            · rfl
            · exact absurd hb hid
          rw [hid', if_neg Bool.false_ne_true] at h
          simp at h
  · rw [hprobe] at h
    have hc : c' = c := Except.ok.inj h
    have hcached : cacheLookup st.cache memberid now = some c' := by
      cases cached
      · simp at hprobe
      · simpa using hprobe
    rw [← hc]
    exact cacheLookup_some_key hcached hw

set_option maxRecDepth 8192 in
theorem getCharacter_cacheWF (env : ClientEnv) (st : ClientState)
    (memberid : Int) (cached : Bool) (now : Nat)
    (hw : ∀ e ∈ st.cache, e.key = e.value.id) :
    ∀ e ∈ (getCharacter env st memberid cached now).1.cache, e.key = e.value.id := by
  unfold getCharacter
  rcases hprobe : (if cached then cacheLookup st.cache memberid now else none)
      with _ | c'
  · rcases hp : parseModcpFields (env.editPage memberid) with e | data
    · cases e <;> exact hw
    · rcases hg : parseCharacterGroup (env.profilePage memberid) with _ | grp
      · exact hw
      · dsimp only
        by_cases hid : (data.id == memberid) = true
        · rw [hid, if_pos rfl]
          by_cases hpos : (0 : Int) < data.id
          · rw [if_pos hpos]
            exact cacheWF_insert hw rfl
          · rw [if_neg hpos]
            exact hw
        · have hid' : (data.id == memberid) = false := by
            cases hb : data.id == memberid
            · rfl
            · exact absurd hb hid
          rw [hid', if_neg Bool.false_ne_true]
          exact hw
  · exact hw

/-- C3: whenever the mod-CP parser signals form-not-found on the
edit-user page served for a member ID (the `ElementNotFoundError`), an
uncached `get_character` raises the member-not-found error carrying
exactly that member ID — it neither returns a character nor propagates
the raw parse error. -/
theorem c3_character_not_found (env : ClientEnv) (st : ClientState)
    (memberid : Int) (now : Nat)
    (h : parseModcpFields (env.editPage memberid) = .error .formNotFound) :
    getCharacter env st memberid false now =
      ({ st with fetches := st.fetches + 2 }, .error (.memberNotFound memberid)) := by
  unfold getCharacter
  rw [if_neg Bool.false_ne_true]
  dsimp only
  rw [h]

def docC3NoForm : ModcpDoc :=
  { maintitles := ["Edit a users profile: Bryn Vaughn"], forms := [] }

def envC3 : ClientEnv :=
  { editPage := fun _ => docC3NoForm,
    profilePage := fun _ => { trainerClassDesc := some "krisigos" } }

theorem c3_character_not_found_witness :
    parseModcpFields (envC3.editPage 45) = .error .formNotFound
    ∧ getCharacter envC3 { cache := [], fetches := 0 } 45 false 0 =
        ({ cache := [], fetches := 2 }, .error (.memberNotFound 45)) := by
  refine ⟨by decide, ?_⟩
  exact c3_character_not_found envC3 { cache := [], fetches := 0 } 45 0 (by decide)

/-- C4: if the member ID embedded in the parsed edit form differs from
the requested one, `get_character` aborts with the ID-mismatch assertion
instead of returning a record; and (on a cache whose keys match their
records' IDs, an invariant the call itself preserves) every character
`get_character` ever returns has `id` equal to the requested member ID. -/
theorem c4_id_mismatch_aborts :
    (∀ (env : ClientEnv) (st : ClientState) (memberid : Int) (now : Nat)
        (data : ModcpData) (grp : String),
      parseModcpFields (env.editPage memberid) = .ok data →
      parseCharacterGroup (env.profilePage memberid) = some grp →
      data.id ≠ memberid →
      getCharacter env st memberid false now =
        ({ st with fetches := st.fetches + 2 }, .error .assertIdMismatch))
    ∧ (∀ (env : ClientEnv) (st : ClientState) (memberid : Int) (cached : Bool)
        (now : Nat) (c : Character),
      (∀ e ∈ st.cache, e.key = e.value.id) →
      (getCharacter env st memberid cached now).2 = .ok c →
      c.id = memberid)
    ∧ (∀ (env : ClientEnv) (st : ClientState) (memberid : Int) (cached : Bool)
        (now : Nat),
      (∀ e ∈ st.cache, e.key = e.value.id) →
      ∀ e ∈ (getCharacter env st memberid cached now).1.cache, e.key = e.value.id) := by
  refine ⟨?_, fun env st memberid cached now c hw h => getCharacter_ok_id hw h,
    fun env st memberid cached now hw => getCharacter_cacheWF env st memberid cached now hw⟩
  intro env st memberid now data grp hp hg hne
  unfold getCharacter
  rw [if_neg Bool.false_ne_true]
  dsimp only
  rw [hp, hg]
  dsimp only
  have hid' : (data.id == memberid) = false := by
    cases hb : data.id == memberid
    · rfl
    · exact absurd (eq_of_beq hb) hne
  rw [hid', if_neg Bool.false_ne_true]

def formC4 : FormModel :=
  { nameAttr := some "ibform", method := "POST",
    actionOrigin := "https://astonish.jcink.net", actionPath := "/index.php",
    actionQuery := [("act", "modcp"), ("CODE", "compedit"), ("memberid", "46")],
    fields := [("field_1", "x")] }

def docC4 : ModcpDoc :=
  { maintitles := ["Edit a users profile: Someone"], forms := [formC4] }

def envC4 : ClientEnv :=
  { editPage := fun _ => docC4,
    profilePage := fun _ => { trainerClassDesc := some " krisigos " } }

theorem c4_id_mismatch_aborts_witness :
    parseModcpFields (envC4.editPage 45) =
      .ok { username := "Someone", id := 46, formFields := [("field_1", "x")] }
    ∧ parseCharacterGroup (envC4.profilePage 45) = some "krisigos"
    ∧ (46 : Int) ≠ 45
    ∧ getCharacter envC4 { cache := [], fetches := 0 } 45 false 0 =
        ({ cache := [], fetches := 2 }, .error .assertIdMismatch) := by
  refine ⟨by decide, by decide, by decide, ?_⟩
  exact c4_id_mismatch_aborts.1 envC4 { cache := [], fetches := 0 } 45 0
    { username := "Someone", id := 46, formFields := [("field_1", "x")] }
    "krisigos" (by decide) (by decide) (by decide)

/-- C5: after a successful uncached `get_character`, a `cached=True` call
for the same member ID strictly before the TTL expires returns the very
same record and leaves the client state untouched (no network request,
under any forum environment); once the TTL has elapsed the cache lookup
misses and the call performs a live two-request fetch again — as does
any `cached=True` call whose lookup misses. -/
theorem c5_cache_roundtrip (env : ClientEnv) (st : ClientState) (memberid : Int)
    (now : Nat) (st1 : ClientState) (c : Character)
    (h : getCharacter env st memberid false now = (st1, .ok c)) :
    (∀ (env2 : ClientEnv) (now2 : Nat), now2 < now + cacheTTL →
      getCharacter env2 st1 memberid true now2 = (st1, .ok c))
    ∧ (∀ (env2 : ClientEnv) (now2 : Nat), now + cacheTTL ≤ now2 →
      cacheLookup st1.cache memberid now2 = none
      ∧ (getCharacter env2 st1 memberid true now2).1.fetches = st1.fetches + 2)
    ∧ (∀ (env2 : ClientEnv) (st2 : ClientState) (k : Int) (now2 : Nat),
        cacheLookup st2.cache k now2 = none →
        (getCharacter env2 st2 k true now2).1.fetches = st2.fetches + 2) := by
  obtain ⟨hcid, hcache, hfetch⟩ := getCharacter_ok_shape h
  have hmiss : ∀ (env2 : ClientEnv) (st2 : ClientState) (k : Int) (now2 : Nat),
      cacheLookup st2.cache k now2 = none →
      (getCharacter env2 st2 k true now2).1.fetches = st2.fetches + 2 := by
    intro env2 st2 k now2 hnone
    exact getCharacter_miss_fetches env2 st2 k true now2 (by simpa using hnone)
  refine ⟨?_, ?_, hmiss⟩
  · intro env2 now2 hlt
    have hhit : cacheLookup st1.cache memberid now2 = some c := by
      rw [hcache, cacheLookup_insert_self, if_pos hlt]
    unfold getCharacter
    rw [if_pos rfl, hhit]
  · intro env2 now2 hge
    have hnone : cacheLookup st1.cache memberid now2 = none := by
      rw [hcache, cacheLookup_insert_self, if_neg (by omega)]
    exact ⟨hnone, hmiss env2 st1 memberid now2 hnone⟩

def formC5 : FormModel :=
  { nameAttr := some "ibform", method := "post",
    actionOrigin := "https://astonish.jcink.net", actionPath := "/index.php",
    actionQuery := [("act", "modcp"), ("CODE", "compedit"), ("memberid", "45")],
    fields := [("field_1", "Bryn")] }

def envC5 : ClientEnv :=
  { editPage := fun _ =>
      { maintitles := ["Edit a users profile: Bryn Vaughn"], forms := [formC5] },
    profilePage := fun _ => { trainerClassDesc := some "krisigos" } }

def charC5 : Character :=
  { id := 45, username := "Bryn Vaughn", group := "krisigos",
    formFields := [("field_1", "Bryn")] }

def stC5 : ClientState :=
  { cache := [{ key := 45, value := charC5, expires := 1900 }], fetches := 2 }

theorem c5_cache_roundtrip_witness :
    getCharacter envC5 { cache := [], fetches := 0 } 45 false 1000 =
      (stC5, .ok charC5)
    ∧ (1500 : Nat) < 1000 + cacheTTL
    ∧ getCharacter envC5 stC5 45 true 1500 = (stC5, .ok charC5)
    ∧ cacheLookup stC5.cache 45 1900 = none
    ∧ (getCharacter envC5 stC5 45 true 1900).1.fetches = stC5.fetches + 2 := by
  have h := c5_cache_roundtrip envC5 { cache := [], fetches := 0 } 45 1000 stC5
    charC5 (by decide)
  refine ⟨by decide, by decide, h.1 envC5 1500 (by decide), ?_, ?_⟩
  · exact (h.2.1 envC5 1900 (by decide)).1
  · exact (h.2.1 envC5 1900 (by decide)).2

/-! ## Helper lemmas on Pokemon block parsing -/

theorem listStarts_append {p l m : List Char} (h : listStarts p l = true) :
    listStarts p (l ++ m) = true := by
  induction p generalizing l with
  | nil => rfl
  | cons a ps ih =>
    cases l with
    | nil => simp [listStarts] at h
    | cons c cs =>
      rw [List.cons_append]
      unfold listStarts at h ⊢
      rw [Bool.and_eq_true] at h ⊢
      exact ⟨h.1, ih h.2⟩

theorem isHttpUrl_of_starts {s : String}
    (h8 : listStarts "https://".data s.data = true) (hlen : 8 < s.data.length) :
    isHttpUrl s = true := by
  unfold isHttpUrl
  rw [h8, decide_eq_true hlen]
  simp

theorem officialArtworkUrl_http (id : Int) (shiny : Bool) :
    isHttpUrl (officialArtworkUrl id shiny) = true := by
  apply isHttpUrl_of_starts
  · unfold officialArtworkUrl
    rw [String.data_append, String.data_append, String.data_append,
      String.data_append]
    rw [List.append_assoc, List.append_assoc, List.append_assoc]
    exact listStarts_append (by decide)
  · unfold officialArtworkUrl
    rw [String.data_append, String.data_append, String.data_append,
      String.data_append]
    rw [List.length_append, List.length_append, List.length_append,
      List.length_append]
    have hL : 8 < ("https://raw.githubusercontent.com/PokeAPI/sprites/master/sprites/pokemon/other/official-artwork" : String).data.length := by
      decide
    omega

theorem ne_empty_of_isHttpUrl {s : String} (h : isHttpUrl s = true) : s ≠ "" := by
  intro he
  subst he
  exact absurd h (by decide)

theorem parsePokemon_inv {e : PkmnElement} {p : PokemonM}
    (h : parsePokemon e = some p) :
    0 < p.id ∧ pyStrip p.name = p.name
    ∧ (p.custom_sprite_url = none
       ∨ ∃ u, p.custom_sprite_url = some u ∧ u ≠ "" ∧ isHttpUrl u = true) := by
  unfold parsePokemon at h
  rcases hs : e.imgSrc with _ | src
  · rw [hs] at h; simp at h
  · rw [hs] at h
    dsimp only at h
    rcases hid : (match e.dataPkmnId with
                  | some v => parsePyInt v
                  | none => parsePyInt (urlStem src)) with _ | id
    · rw [hid] at h; simp at h
    · rw [hid] at h
      dsimp only at h
      rcases hn : e.nameText with _ | rawName
      · rw [hn] at h; simp at h
      · rw [hn] at h
        dsimp only at h
        by_cases hpos : 0 < id
        · rw [if_pos hpos] at h
          rcases hv : validateOptUrl src with _ | cu
          · rw [hv] at h; simp at h
          · rw [hv] at h
            dsimp only at h
            have hp := Option.some.inj h
            subst hp
            refine ⟨hpos, pyStrip_idem rawName, ?_⟩
            unfold validateOptUrl at hv
            by_cases hsrc : src = ""
            · rw [if_pos hsrc] at hv
              left
              exact (Option.some.inj hv).symm
            · rw [if_neg hsrc] at hv
              by_cases hurl : isHttpUrl src = true
              · rw [if_pos hurl] at hv
                right
                exact ⟨src, (Option.some.inj hv).symm, hsrc, hurl⟩
              · rw [if_neg hurl] at hv
                simp at hv
        · rw [if_neg hpos] at h
          simp at h

theorem spriteUrl_valid {p : PokemonM}
    (hc : p.custom_sprite_url = none
      ∨ ∃ u, p.custom_sprite_url = some u ∧ u ≠ "" ∧ isHttpUrl u = true) :
    isHttpUrl (spriteUrl p) = true := by
  unfold spriteUrl
  rcases hc with h | ⟨u, hu, hne, hurl⟩
  · rw [h]
    exact officialArtworkUrl_http p.id p.shiny
  · rw [hu]
    dsimp only
    rw [if_neg hne]
    exact hurl

theorem parsePokemon_dump {e : PkmnElement} {p : PokemonM}
    (h : parsePokemon e = some p) :
    parsePokemon (dumpPokemon p) =
      some { p with custom_sprite_url := some (spriteUrl p) } := by
  obtain ⟨hpos, hname, hcust⟩ := parsePokemon_inv h
  have hurl : isHttpUrl (spriteUrl p) = true := spriteUrl_valid hcust
  have hne : spriteUrl p ≠ "" := ne_empty_of_isHttpUrl hurl
  have hv : validateOptUrl (spriteUrl p) = some (some (spriteUrl p)) := by
    unfold validateOptUrl
    rw [if_neg hne, if_pos hurl]
  have hsh : pyContains "shiny"
      (if p.shiny then "pkmn-display shiny" else "pkmn-display") = p.shiny := by
    cases p.shiny <;> decide
  unfold parsePokemon dumpPokemon
  dsimp only
  rw [parsePyInt_printInt (by omega : (1 : Int) ≤ p.id)]
  dsimp only
  rw [if_pos hpos, hv]
  dsimp only
  rw [hname, hsh]

/-- C6: the personal-computer round trip — any parsed Pokemon list,
serialized block by block by `model_dump_html` and re-parsed, parses
successfully to a list of the same length and order with identical `id`,
`name` and `shiny` per entry (only the custom-sprite field is filled in
with the serialized sprite URL). -/
theorem c6_pc_roundtrip (es : List PkmnElement) (ps : List PokemonM)
    (h : parsePokemonList es = some ps) :
    parsePokemonList (ps.map dumpPokemon) =
      some (ps.map (fun p => { p with custom_sprite_url := some (spriteUrl p) }))
    ∧ (ps.map (fun p => { p with custom_sprite_url := some (spriteUrl p) })).map
        (fun p => (p.id, p.name, p.shiny))
      = ps.map (fun p => (p.id, p.name, p.shiny)) := by
  constructor
  · induction es generalizing ps with
    | nil =>
      unfold parsePokemonList at h
      rw [← Option.some.inj h]
      rfl
    | cons e es ih =>
      unfold parsePokemonList at h
      rcases he : parsePokemon e with _ | p
      · rw [he] at h; simp at h
      · rw [he] at h
        rcases hrest : parsePokemonList es with _ | ps'
        · rw [hrest] at h; simp at h
        · rw [hrest] at h
          dsimp only at h
          rw [← Option.some.inj h]
          simp only [List.map_cons]
          unfold parsePokemonList
          rw [parsePokemon_dump he, ih ps' hrest]
  · clear h
    induction ps with
    | nil => rfl
    | cons p t iht =>
      simp only [List.map_cons, iht]

def pkmnC6 : PkmnElement :=
  { attrClass := some "pkmn-display shiny", dataPkmnId := some "940",
    imgSrc := some "https://files.jcink.net/uploads2/astonish/variants/normal/940.png",
    nameText := some "Wattrel" }

def psC6 : List PokemonM :=
  [{ id := 940, name := "Wattrel", shiny := true,
     custom_sprite_url :=
       some "https://files.jcink.net/uploads2/astonish/variants/normal/940.png" }]

set_option maxRecDepth 8192 in
theorem c6_pc_roundtrip_witness :
    parsePokemonList [pkmnC6] = some psC6
    ∧ parsePokemonList (psC6.map dumpPokemon) =
        some (psC6.map (fun p => { p with custom_sprite_url := some (spriteUrl p) })) := by
  refine ⟨by decide, ?_⟩
  exact (c6_pc_roundtrip [pkmnC6] psC6 (by decide)).1

/-- C10 counterexample: a block with `data-pkmn-id` and an *empty*
`img src` parses successfully, but its `custom_sprite_url` is `None`
(the falsy source collapses to `None` in `OptionalHttpUrl`) and
`sprite_url` returns the computed official-artwork URL — not the markup
URL, refuting the claim that every parsed entry carries a non-null
`custom_sprite_url` equal to the markup's `src`. -/
theorem c10_counterexample :
    parsePokemon { attrClass := none, dataPkmnId := some "25",
                   imgSrc := some "", nameText := some "Pikachu" } =
      some { id := 25, name := "Pikachu", shiny := false,
             custom_sprite_url := none }
    ∧ spriteUrl { id := 25, name := "Pikachu", shiny := false,
                  custom_sprite_url := none } = officialArtworkUrl 25 false
    ∧ officialArtworkUrl 25 false ≠ "" := by
  refine ⟨by decide, rfl, by decide⟩

/-- C10 (amended): a parsed entry whose block's `img src` is non-empty
has `custom_sprite_url` set to exactly that `src` and `sprite_url`
returns it; a parsed entry whose `img src` is empty gets
`custom_sprite_url = None`, and `sprite_url` falls back to the computed
official-artwork URL. -/
theorem c10_sprite_url_amended :
    (∀ (e : PkmnElement) (p : PokemonM) (src : String),
      parsePokemon e = some p → e.imgSrc = some src → src ≠ "" →
      p.custom_sprite_url = some src ∧ spriteUrl p = src)
    ∧ (∀ (e : PkmnElement) (p : PokemonM),
      parsePokemon e = some p → e.imgSrc = some "" →
      p.custom_sprite_url = none
      ∧ spriteUrl p = officialArtworkUrl p.id p.shiny) := by
  have main : ∀ (e : PkmnElement) (p : PokemonM) (src : String),
      parsePokemon e = some p → e.imgSrc = some src →
      validateOptUrl src = some p.custom_sprite_url := by
    intro e p src h hsrc
    unfold parsePokemon at h
    rw [hsrc] at h
    dsimp only at h
    rcases hid : (match e.dataPkmnId with
                  | some v => parsePyInt v
                  | none => parsePyInt (urlStem src)) with _ | id
    · rw [hid] at h; simp at h
    · rw [hid] at h
      dsimp only at h
      rcases hn : e.nameText with _ | rawName
      · rw [hn] at h; simp at h
      · rw [hn] at h
        dsimp only at h
        by_cases hpos : 0 < id
        · rw [if_pos hpos] at h
          rcases hv : validateOptUrl src with _ | cu
          · rw [hv] at h; simp at h
          · rw [hv] at h
            dsimp only at h
            rw [← Option.some.inj h]
        · rw [if_neg hpos] at h
          simp at h
  constructor
  · intro e p src h hsrc hne
    have hv := main e p src h hsrc
    unfold validateOptUrl at hv
    rw [if_neg hne] at hv
    by_cases hurl : isHttpUrl src = true
    · rw [if_pos hurl] at hv
      have hc : p.custom_sprite_url = some src := (Option.some.inj hv).symm
      refine ⟨hc, ?_⟩
      unfold spriteUrl
      rw [hc]
      dsimp only
      rw [if_neg hne]
    · rw [if_neg hurl] at hv
      simp at hv
  · intro e p h hsrc
    have hv := main e p "" h hsrc
    unfold validateOptUrl at hv
    rw [if_pos rfl] at hv
    have hc : p.custom_sprite_url = none := (Option.some.inj hv).symm
    refine ⟨hc, ?_⟩
    unfold spriteUrl
    rw [hc]

def pkmnC10 : PkmnElement :=
  { attrClass := some "pkmn-display", dataPkmnId := none,
    imgSrc := some "https://files.jcink.net/uploads2/astonish/variants/normal/7.png",
    nameText := some "Squirtle" }

set_option maxRecDepth 8192 in
theorem c10_sprite_url_amended_witness :
    parsePokemon pkmnC10 =
      some { id := 7, name := "Squirtle", shiny := false,
             custom_sprite_url :=
               some "https://files.jcink.net/uploads2/astonish/variants/normal/7.png" }
    ∧ pkmnC10.imgSrc =
        some "https://files.jcink.net/uploads2/astonish/variants/normal/7.png"
    ∧ ("https://files.jcink.net/uploads2/astonish/variants/normal/7.png" : String) ≠ ""
    ∧ ({ id := 7, name := "Squirtle", shiny := false,
         custom_sprite_url :=
           some "https://files.jcink.net/uploads2/astonish/variants/normal/7.png" }
        : PokemonM).custom_sprite_url =
        some "https://files.jcink.net/uploads2/astonish/variants/normal/7.png" := by
  refine ⟨by decide, by decide, by decide, ?_⟩
  exact (c10_sprite_url_amended.1 pkmnC10 _ _ (by decide) (by decide) (by decide)).1

/-! ## Helper lemmas on inventory parsing -/

theorem parseItemStack_ok {tr : TrModel} {x : ItemStackM}
    (h : parseItemStack tr = .ok x) :
    tr.tds.length = 4 ∧ 1 ≤ x.stock := by
  unfold parseItemStack at h
  rcases htds : tr.tds with _ | ⟨a, _ | ⟨b, _ | ⟨c, _ | ⟨d, rest⟩⟩⟩⟩
  · rw [htds] at h; simp at h
  · rw [htds] at h; simp at h
  · rw [htds] at h; simp at h
  · rw [htds] at h; simp at h
  · cases rest with
    | cons e rest2 => rw [htds] at h; simp at h
    | nil =>
      rw [htds] at h
      dsimp only at h
      rcases him : a.img with _ | im
      · rw [him] at h; simp at h
      · rw [him] at h
        dsimp only at h
        rcases hsrc : im.src with _ | src
        · rw [hsrc] at h; simp at h
        · rw [hsrc] at h
          dsimp only at h
          by_cases hurl : isHttpUrl src = true
          · rw [if_pos hurl] at h
            rcases hn : parsePyInt d.text with _ | n
            · rw [hn] at h; simp at h
            · rw [hn] at h
              dsimp only at h
              by_cases hpos : 0 < n
              · rw [if_pos hpos] at h
                have hx := Except.ok.inj h
                refine ⟨rfl, ?_⟩
                rw [← hx]
                show (1 : Int) ≤ n
                omega
              · rw [if_neg hpos] at h; simp at h
          · rw [if_neg hurl] at h; simp at h

theorem mapStacks_ok {l : List TrModel} {xs : List ItemStackM}
    (h : mapStacks l = .ok xs) :
    xs.length = l.length ∧ (∀ t ∈ l, t.tds.length = 4)
    ∧ (∀ x ∈ xs, 1 ≤ x.stock) := by
  induction l generalizing xs with
  | nil =>
    unfold mapStacks at h
    rw [← Except.ok.inj h]
    exact ⟨rfl, by simp, by simp⟩
  | cons t ts ih =>
    unfold mapStacks at h
    rcases hx : parseItemStack t with e | x
    · rw [hx] at h; simp at h
    · rw [hx] at h
      rcases hrest : mapStacks ts with e | xs'
      · rw [hrest] at h; simp at h
      · rw [hrest] at h
        dsimp only at h
        rw [← Except.ok.inj h]
        obtain ⟨hlen, h4, hst⟩ := ih hrest
        obtain ⟨ht4, htst⟩ := parseItemStack_ok hx
        refine ⟨by simp [hlen], ?_, ?_⟩
        · intro u hu
          rcases List.mem_cons.mp hu with h1 | h1
          · rw [h1]; exact ht4
          · exact h4 u h1
        · intro y hy
          rcases List.mem_cons.mp hy with h1 | h1
          · rw [h1]; exact htst
          · exact hst y h1

theorem mapStacks_err {l : List TrModel} (t : TrModel) (ht : t ∈ l)
    (h4 : t.tds.length ≠ 4) : ∃ e, mapStacks l = .error e := by
  cases hm : mapStacks l with
  | error e => exact ⟨e, rfl⟩
  | ok xs => exact absurd ((mapStacks_ok hm).2.1 t ht) h4

/-- C8 counterexample: a store page whose first data row's text is
`' Inventory Empty.'` (leading space — not exactly the literal) and has
zero cells parses successfully to an inventory with zero items, whereas
the claim's "otherwise" branch requires one `ItemStack` per data row or
a parse failure for any other row shape. -/
theorem c8_counterexample :
    parseInventory
      { ownerText := "ASTONISH",
        rows := [{ text := "", tds := [] }, { text := "", tds := [] },
                 { text := "", tds := [] },
                 { text := " Inventory Empty.", tds := [] }] } =
      .ok { owner := "ASTONISH", items := [] }
    ∧ (" Inventory Empty." : String) ≠ "Inventory Empty."
    ∧ ([{ text := "", tds := [] }, { text := "", tds := [] },
        { text := "", tds := [] },
        ({ text := " Inventory Empty.", tds := [] } : TrModel)].drop 3).map
        (fun t => t.tds.length) = [0] := by
  refine ⟨by decide, by decide, by decide⟩

/-- C8 (amended): with the empty-inventory marker compared on the
*whitespace-stripped* text of the first data row: if the stripped text
is exactly `'Inventory Empty.'` the inventory parses to zero items;
otherwise a successful parse yields exactly one `ItemStack` per data
row, every data row has exactly four cells, every stock is a positive
integer (`stock ≥ 1`), and any data row of a different shape makes the
whole parse fail. -/
theorem c8_inventory_amended (doc : InventoryDoc) (tr0 : TrModel)
    (rest : List TrModel) (hrows : doc.rows.drop 3 = tr0 :: rest) :
    (pyStrip tr0.text = "Inventory Empty." →
      parseInventory doc = .ok { owner := pyStrip doc.ownerText, items := [] })
    ∧ (pyStrip tr0.text ≠ "Inventory Empty." →
      (∀ inv, parseInventory doc = .ok inv →
        inv.items.length = (tr0 :: rest).length
        ∧ (∀ t ∈ tr0 :: rest, t.tds.length = 4)
        ∧ (∀ x ∈ inv.items, 1 ≤ x.stock))
      ∧ (∀ t ∈ tr0 :: rest, t.tds.length ≠ 4 →
          ∃ e, parseInventory doc = .error e)) := by
  constructor
  · intro hempt
    unfold parseInventory
    rw [hrows]
    dsimp only
    rw [if_pos hempt]
  · intro hne
    constructor
    · intro inv hinv
      unfold parseInventory at hinv
      rw [hrows] at hinv
      dsimp only at hinv
      rw [if_neg hne] at hinv
      rcases hm : mapStacks (tr0 :: rest) with e | items
      · rw [hm] at hinv; simp at hinv
      · rw [hm] at hinv
        dsimp only at hinv
        obtain ⟨hlen, h4, hst⟩ := mapStacks_ok hm
        rw [← Except.ok.inj hinv]
        exact ⟨hlen, h4, hst⟩
    · intro t ht h4
      obtain ⟨e, he⟩ := mapStacks_err t ht h4
      refine ⟨e, ?_⟩
      unfold parseInventory
      rw [hrows]
      dsimp only
      rw [if_neg hne, he]

def trC8 : TrModel :=
  { text := "Hemitheo Bloodline",
    tds := [{ text := "", img := some { src := some "https://i.postimg.cc/zf06p5tP/hime.png" } },
            { text := "Hemitheo Bloodline", img := none },
            { text := "Create a new Hemitheo bloodline", img := none },
            { text := "1", img := none }] }

def invDocC8 : InventoryDoc :=
  { ownerText := "Bryn Vaughn",
    rows := [{ text := "", tds := [] }, { text := "", tds := [] },
             { text := "", tds := [] }, trC8] }

set_option maxRecDepth 8192 in
theorem c8_inventory_amended_witness :
    invDocC8.rows.drop 3 = trC8 :: []
    ∧ pyStrip trC8.text ≠ "Inventory Empty."
    ∧ parseInventory invDocC8 =
        .ok { owner := "Bryn Vaughn",
              items := [{ icon_url := "https://i.postimg.cc/zf06p5tP/hime.png",
                          name := "Hemitheo Bloodline",
                          description := "Create a new Hemitheo bloodline",
                          stock := 1 }] }
    ∧ (∀ inv, parseInventory invDocC8 = .ok inv →
        inv.items.length = (trC8 :: []).length
        ∧ (∀ t ∈ trC8 :: ([] : List TrModel), t.tds.length = 4)
        ∧ (∀ x ∈ inv.items, 1 ≤ x.stock)) := by
  refine ⟨by decide, by decide, by decide, ?_⟩
  exact ((c8_inventory_amended invDocC8 trC8 [] (by decide)).2 (by decide)).1

/-! ## Helper lemmas on shop region parsing -/

theorem buildTypes_append_ok {l1 rest : List TypeSpan}
    {acc res : List (String × Rarity)}
    (h : buildTypes (l1 ++ rest) acc = .ok res) :
    ∃ acc1, buildTypes rest acc1 = .ok res := by
  induction l1 generalizing acc with
  | nil => exact ⟨acc, h⟩
  | cons s ss ih =>
    rw [List.cons_append] at h
    unfold buildTypes at h
    rcases hp : parsePokemonType s with e | t
    · rw [hp] at h; simp at h
    · rw [hp] at h
      dsimp only at h
      by_cases hdup : acc.any (fun q => q.1 == t.name) = true
      · rw [if_pos hdup] at h; simp at h
      · have hdup' : acc.any (fun q => q.1 == t.name) = false := by
          cases hb : acc.any (fun q => q.1 == t.name)
          · rfl
          · exact absurd hb hdup
        rw [hdup', if_neg Bool.false_ne_true] at h
        exact ih h

theorem buildTypes_dup {l3 : List TypeSpan} {b : TypeSpan} {tb : PokemonTypeM}
    (hb : parsePokemonType b = .ok tb) :
    ∀ (l2 : List TypeSpan) (acc : List (String × Rarity)),
      acc.any (fun q => q.1 == tb.name) = true →
      ∀ res, buildTypes (l2 ++ b :: l3) acc ≠ .ok res := by
  intro l2
  induction l2 with
  | nil =>
    intro acc hacc res h
    rw [List.nil_append] at h
    unfold buildTypes at h
    rw [hb] at h
    dsimp only at h
    rw [if_pos hacc] at h
    simp at h
  | cons s ss ih =>
    intro acc hacc res h
    rw [List.cons_append] at h
    unfold buildTypes at h
    rcases hp : parsePokemonType s with e | t
    · rw [hp] at h; simp at h
    · rw [hp] at h
      dsimp only at h
      by_cases hdup : acc.any (fun q => q.1 == t.name) = true
      · rw [if_pos hdup] at h; simp at h
      · have hdup' : acc.any (fun q => q.1 == t.name) = false := by
          cases hb2 : acc.any (fun q => q.1 == t.name)
          · rfl
          · exact absurd hb2 hdup
        rw [hdup', if_neg Bool.false_ne_true] at h
        refine ih (acc ++ [(t.name, t.rarity)]) ?_ res h
        rw [List.any_append, hacc]
        rfl

/-- C9: a type span's text is stripped and lowercased; a trailing rarity
marker `'*'` yields a rare type with the marker removed (and the name
re-stripped by pydantic at construction), any other name yields a
common type with the normalized name kept; and a region two of whose
spans parse to the same type name fails to parse (with an error), never
producing a catalog. -/
theorem c9_region_types :
    (∀ (e : TypeSpan) (raw : String), e.text = some raw → raw ≠ "" →
      (pyEndsWith (pyLower (pyStrip raw)) rareSuffix = true →
        parsePokemonType e =
          .ok { name := pyStrip (pyRemoveSuffix (pyLower (pyStrip raw)) rareSuffix),
                rarity := .rare })
      ∧ (pyEndsWith (pyLower (pyStrip raw)) rareSuffix = false →
        parsePokemonType e =
          .ok { name := pyStrip (pyLower (pyStrip raw)), rarity := .common }))
    ∧ (∀ (doc : RegionDoc) (l1 l2 l3 : List TypeSpan) (a b : TypeSpan)
        (ta tb : PokemonTypeM),
      doc.typeSpans = l1 ++ a :: (l2 ++ b :: l3) →
      parsePokemonType a = .ok ta → parsePokemonType b = .ok tb →
      ta.name = tb.name →
      ∃ err, parseRegion doc = .error err) := by
  constructor
  · intro e raw htext hraw
    constructor
    · intro hsuf
      unfold parsePokemonType
      rw [htext]
      dsimp only
      rw [if_neg hraw, if_pos hsuf]
    · intro hsuf
      unfold parsePokemonType
      rw [htext]
      dsimp only
      rw [if_neg hraw, hsuf, if_neg Bool.false_ne_true]
  · intro doc l1 l2 l3 a b ta tb hspans hta htb hname
    cases hbt : buildTypes doc.typeSpans [] with
    | error err =>
      refine ⟨err, ?_⟩
      unfold parseRegion
      rw [hbt]
    | ok ts =>
      exfalso
      rw [hspans] at hbt
      obtain ⟨acc1, hacc1⟩ := buildTypes_append_ok hbt
      unfold buildTypes at hacc1
      rw [hta] at hacc1
      dsimp only at hacc1
      by_cases hdup : acc1.any (fun q => q.1 == ta.name) = true
      · rw [if_pos hdup] at hacc1; simp at hacc1
      · have hdup' : acc1.any (fun q => q.1 == ta.name) = false := by
          cases hb2 : acc1.any (fun q => q.1 == ta.name)
          · rfl
          · exact absurd hb2 hdup
        rw [hdup', if_neg Bool.false_ne_true] at hacc1
        refine buildTypes_dup htb l2 (acc1 ++ [(ta.name, ta.rarity)]) ?_ ts hacc1
        rw [List.any_append]
        have : ((ta.name, ta.rarity) :: []).any (fun q => q.1 == tb.name) = true := by
          simp [hname]
        rw [this]
        simp

def regionDocC9 : RegionDoc :=
  { titleText := "Lythra",
    typeSpans := [{ text := some "Fire" }, { text := some " fire *" }] }

set_option maxRecDepth 8192 in
theorem c9_region_types_witness :
    ({ text := some "Fire" } : TypeSpan).text = some "Fire"
    ∧ ("Fire" : String) ≠ ""
    ∧ pyEndsWith (pyLower (pyStrip "Fire")) rareSuffix = false
    ∧ parsePokemonType { text := some "Fire" } =
        .ok { name := "fire", rarity := .common }
    ∧ parsePokemonType { text := some " fire *" } =
        .ok { name := "fire", rarity := .rare }
    ∧ regionDocC9.typeSpans =
        [] ++ ({ text := some "Fire" } : TypeSpan) ::
          ([] ++ ({ text := some " fire *" } : TypeSpan) :: [])
    ∧ (∃ err, parseRegion regionDocC9 = .error err) := by
  refine ⟨by decide, by decide, by decide, ?_, by decide, by decide, ?_⟩
  · have h := ((c9_region_types.1 { text := some "Fire" } "Fire" (by decide)
      (by decide)).2 (by decide))
    simpa using h
  · exact c9_region_types.2 regionDocC9 [] [] [] { text := some "Fire" }
      { text := some " fire *" } { name := "fire", rarity := .common }
      { name := "fire", rarity := .rare } (by decide) (by decide) (by decide) rfl

/-! ## Helper lemmas on the `extra` payload -/

theorem validateExtraV1_ok {v : JsonV} {e : ExtraDataV1M}
    (h : validateExtraV1 v = .ok e) :
    e.version = 1
    ∧ ∃ fs, v = .obj fs ∧ jfield fs "version" = some (.num 1) := by
  unfold validateExtraV1 at h
  cases v with
  | null => simp at h
  | bool b => simp at h
  | num n => simp at h
  | str s => simp at h
  | arr xs => simp at h
  | obj fs =>
    dsimp only at h
    rcases hv : jfield fs "version" with _ | jv
    · rw [hv] at h; simp at h
    · rw [hv] at h
      cases jv with
      | null => simp at h
      | bool b => simp at h
      | str s => simp at h
      | arr xs => simp at h
      | obj fs2 => simp at h
      | num n =>
        dsimp only at h
        by_cases hn : n = 1
        · subst hn
          rw [if_pos rfl] at h
          refine ⟨?_, fs, rfl, hv⟩
          rcases hd : jfield fs "discord_id" with _ | dv
          · rw [hd] at h
            rw [← Except.ok.inj h]
          · rw [hd] at h
            cases dv with
            | null => rw [← Except.ok.inj h]
            | num d => rw [← Except.ok.inj h]
            | str sdv =>
              dsimp only at h
              rcases hp : parsePyInt sdv with _ | d
              · rw [hp] at h; simp at h
              · rw [hp] at h
                rw [← Except.ok.inj h]
            | bool b => simp at h
            | arr xs => simp at h
            | obj fs2 => simp at h
        · rw [if_neg hn] at h; simp at h

/-- C7 counterexample: the non-empty payload `{"version": 2}` is
*unrecognized* (its discriminator is not the literal `1`), yet
validation fails with an error instead of defaulting to the version-1
empty record — refuting the claim that any unrecognized payload
defaults. -/
theorem c7_counterexample :
    validateExtraField "\x7b\"version\": 2\x7d" = .error ()
    ∧ validateExtraField "\x7b\"version\": 2\x7d" ≠
        .ok { version := 1, discord_id := none } := by
  refine ⟨by decide, by decide⟩

/-- C7 (amended): only the *empty* payload defaults to the version-1
empty record (`version = 1`, no linked Discord identifier); every other
successfully validated payload is a JSON object whose `version`
discriminator is the literal `1` (and decodes with `version = 1`); a
non-empty payload that is not such an object fails validation rather
than defaulting. -/
theorem c7_extra_versioning_amended :
    validateExtraField "" = .ok { version := 1, discord_id := none }
    ∧ (∀ (s : String) (e : ExtraDataV1M),
        validateExtraField s = .ok e → e.version = 1)
    ∧ (∀ (s : String) (e : ExtraDataV1M),
        validateExtraField s = .ok e →
        s = "" ∨ ∃ fs, jsonDecode s = some (.obj fs)
          ∧ jfield fs "version" = some (.num 1)) := by
  refine ⟨by decide, ?_, ?_⟩
  · intro s e h
    unfold validateExtraField at h
    by_cases hs : s = ""
    · rw [if_pos hs] at h
      rw [← Except.ok.inj h]
    · rw [if_neg hs] at h
      rcases hj : jsonDecode s with _ | v
      · rw [hj] at h; simp at h
      · rw [hj] at h
        exact (validateExtraV1_ok h).1
  · intro s e h
    unfold validateExtraField at h
    by_cases hs : s = ""
    · exact Or.inl hs
    · rw [if_neg hs] at h
      rcases hj : jsonDecode s with _ | v
      · rw [hj] at h; simp at h
      · rw [hj] at h
        obtain ⟨_, fs, hv, hfield⟩ := validateExtraV1_ok h
        exact Or.inr ⟨fs, by rw [hv], hfield⟩

theorem c7_extra_versioning_amended_witness :
    validateExtraField "" = .ok { version := 1, discord_id := none }
    ∧ validateExtraField "\x7b\"version\": 1, \"discord_id\": 1234\x7d" =
        .ok { version := 1, discord_id := some 1234 }
    ∧ (("\x7b\"version\": 1, \"discord_id\": 1234\x7d" : String) = ""
       ∨ ∃ fs, jsonDecode "\x7b\"version\": 1, \"discord_id\": 1234\x7d" =
           some (.obj fs) ∧ jfield fs "version" = some (.num 1)) := by
  refine ⟨c7_extra_versioning_amended.1, by decide, ?_⟩
  exact c7_extra_versioning_amended.2.2
    "\x7b\"version\": 1, \"discord_id\": 1234\x7d"
    { version := 1, discord_id := some 1234 } (by decide)
